import Mathlib

/-!
Verification of the war_room scrape engine (src/war_room/scraper/scrape_engine.py)
against its natural-language specification.

Modelling conventions for the shallow embedding:
* Python floats are modelled as rationals (ℚ); all price arithmetic in the
  engine is elementary, and the IEEE special values produced by pandas when a
  rolling mean is zero (inf / -inf / NaN) are modelled explicitly by the
  FloatVal type together with IEEE division-by-zero and comparison rules.
* datetime values are modelled by their ISO-8601 string form (the engine only
  ever serializes timestamps with .isoformat() and sorts by them).
* A Python dict carrying the specs mapping is modelled as an ordered
  association list, matching CPython's insertion-ordered dicts.
* Fallible Python code (an expression that can raise) is modelled with
  Except / Option, and payload items whose dynamic field accesses would raise
  are modelled by a dedicated "bad" constructor of the payload type.
-/

/-! ## JSON serialization of the specs mapping

The engine serializes `specs` with `json.dumps(specs, ensure_ascii=False)`
(Product.as_tuple and save_to_csv).  For a string-to-string mapping this
produces `{"k": "v", "k2": "v2"}` with the default separators, escaping
backslash, double quote, the control shorthands \b \f \n \r \t, and the
remaining control characters as \u00XX.  The encoder below reproduces
exactly that output at the level of character lists. -/

def hexDig (n : Nat) : Char :=
  if n = 0 then '0' else if n = 1 then '1' else if n = 2 then '2'
  else if n = 3 then '3' else if n = 4 then '4' else if n = 5 then '5'
  else if n = 6 then '6' else if n = 7 then '7' else if n = 8 then '8'
  else if n = 9 then '9' else if n = 10 then 'a' else if n = 11 then 'b'
  else if n = 12 then 'c' else if n = 13 then 'd' else if n = 14 then 'e'
  else 'f'

def hexVal (c : Char) : Option Nat :=
  if c = '0' then some 0 else if c = '1' then some 1 else if c = '2' then some 2
  else if c = '3' then some 3 else if c = '4' then some 4 else if c = '5' then some 5
  else if c = '6' then some 6 else if c = '7' then some 7 else if c = '8' then some 8
  else if c = '9' then some 9 else if c = 'a' then some 10 else if c = 'b' then some 11
  else if c = 'c' then some 12 else if c = 'd' then some 13 else if c = 'e' then some 14
  else if c = 'f' then some 15 else none

/-- Escape of one character, as performed by json.dumps with ensure_ascii=False. -/
def escChar (c : Char) : List Char :=
  if c = '\\' then ['\\', '\\']
  else if c = '"' then ['\\', '"']
  else if c = '\x08' then ['\\', 'b']
  else if c = '\x0c' then ['\\', 'f']
  else if c = '\n' then ['\\', 'n']
  else if c = '\r' then ['\\', 'r']
  else if c = '\t' then ['\\', 't']
  else if c.toNat < 32 then ['\\', 'u', '0', '0', hexDig (c.toNat / 16), hexDig (c.toNat % 16)]
  else [c]

def escList (l : List Char) : List Char := l.flatMap escChar

/-- Decoding of a one-character escape (everything except the \uXXXX form). -/
def unescChar (c : Char) : Option Char :=
  if c = '"' then some '"'
  else if c = '\\' then some '\\'
  else if c = '/' then some '/'
  else if c = 'b' then some '\x08'
  else if c = 'f' then some '\x0c'
  else if c = 'n' then some '\n'
  else if c = 'r' then some '\r'
  else if c = 't' then some '\t'
  else none

/-- Modelled from the spec: scanner for one JSON string body, consuming up to
and including the closing quote; part of the store reader that reconstructs
the specs mapping from its JSON-encoded serialized form (the repository only
contains the writer, json.dumps).  Fuelled so that the kernel can evaluate it. -/
def scanString : Nat → List Char → Option (List Char × List Char)
  | 0, _ => none
  | _ + 1, [] => none
  | f + 1, c :: rest =>
    if c = '"' then some ([], rest)
    else if c = '\\' then
      match rest with
      | [] => none
      | e :: rest2 =>
        if e = 'u' then
          match rest2 with
          | h1 :: h2 :: h3 :: h4 :: rest3 => do
            let n1 ← hexVal h1
            let n2 ← hexVal h2
            let n3 ← hexVal h3
            let n4 ← hexVal h4
            let (s, r) ← scanString f rest3
            pure (Char.ofNat (((n1 * 16 + n2) * 16 + n3) * 16 + n4) :: s, r)
          | _ => none
        else do
          let d ← unescChar e
          let (s, r) ← scanString f rest2
          pure (d :: s, r)
    else do
      let (s, r) ← scanString f rest
      pure (c :: s, r)

/-- Modelled from the spec: parser for the comma-separated entries of the JSON
object emitted by json.dumps for a string-to-string mapping, ending at the
closing brace.  Fuel bounds the number of entries. -/
def parseEntries : Nat → List Char → Option (List (List Char × List Char))
  | 0, _ => none
  | f + 1, l =>
    match l with
    | '"' :: rest => do
      let (k, r1) ← scanString rest.length rest
      match r1 with
      | ':' :: ' ' :: '"' :: r2 => do
        let (v, r3) ← scanString r2.length r2
        match r3 with
        | ['\x7d'] => pure [(k, v)]
        | ',' :: ' ' :: r4 => do
          let t ← parseEntries f r4
          pure ((k, v) :: t)
        | _ => none
      | _ => none
    | _ => none

/-- One serialized entry of the JSON object: "key": "value" (escaped). -/
def encEntry (kv : List Char × List Char) : List Char :=
  '"' :: (escList kv.1 ++ '"' :: ':' :: ' ' :: '"' :: (escList kv.2 ++ ['"']))

/-- Serialized entries followed by the closing brace. -/
def dumpBody : List (List Char × List Char) → List Char
  | [] => ['\x7d']
  | [kv] => encEntry kv ++ ['\x7d']
  | kv :: rest => encEntry kv ++ ',' :: ' ' :: dumpBody rest

/-- Character-level model of json.dumps(d, ensure_ascii=False) for a
string-to-string mapping d. -/
def jsonDumpsList (l : List (List Char × List Char)) : List Char :=
  '\x7b' :: dumpBody l

/-- Modelled from the spec: character-level reader for the serialized specs
blob (the exact format produced by jsonDumpsList). -/
def jsonLoadsChars : List Char → Option (List (List Char × List Char))
  | '\x7b' :: rest => if rest = ['\x7d'] then some [] else parseEntries rest.length rest
  | _ => none

/-- Model of json.dumps(specs, ensure_ascii=False) as used by
Product.as_tuple and save_to_csv. -/
def json_dumps (specs : List (String × String)) : String :=
  ⟨jsonDumpsList (specs.map fun kv => (kv.1.data, kv.2.data))⟩

/-- Modelled from the spec: json.loads for the serialized specs blob; the
repository writes specs with json.dumps but the read-back direction exists
only in the spec's round-trip property. -/
def json_loads (s : String) : Option (List (String × String)) :=
  (jsonLoadsChars s.data).map (List.map fun kv => (⟨kv.1⟩, ⟨kv.2⟩))

/-! ## Normalized record model

Product (scrape_engine.py lines 53-75): one observed listing.  The
timestamp field of the Python dataclass is a datetime; it is modelled here
by its ISO-8601 string form, which is exactly what as_tuple, save_to_csv
and the database column store.  specs is an insertion-ordered dict from
strings to strings, modelled as an association list. -/

structure Product where
  marketplace : String
  name : String
  price : ℚ
  currency : String
  specs : List (String × String)
  sales : Option Int
  rating : Option ℚ
  timestamp : String
deriving DecidableEq

/-- One row of the products table (create_tables, lines 289-315): columns
timestamp, marketplace, name, price, currency, specs, sales, rating, with
specs a JSON-encoded string. -/
structure Row where
  timestamp : String
  marketplace : String
  name : String
  price : ℚ
  currency : String
  specs : String
  sales : Option Int
  rating : Option ℚ
deriving DecidableEq

/-- Product.as_tuple (lines 65-75): the row written to the database, with
timestamp.isoformat() and json.dumps(specs, ensure_ascii=False). -/
def Product.as_tuple (p : Product) : Row :=
  { timestamp := p.timestamp
    marketplace := p.marketplace
    name := p.name
    price := p.price
    currency := p.currency
    specs := json_dumps p.specs
    sales := p.sales
    rating := p.rating }

/-! ## Source adapters

Each adapter is modelled as a pure function of the payload it would have
fetched.  The timestamp ts is the capture time (dataclass default
utcnow()).  A payload item whose dynamic field accesses would raise in
Python (e.g. a null where a dict is expected, or a non-numeric price
value) is modelled by a dedicated constructor of the payload type, since
the Python code has no per-item try/except on those paths. -/

/-- One item_basic object of the Shopee search API payload
(parse_shopee, lines 122-145).  A field that is absent from the payload is
None here; model.get then yields the code's default. -/
structure ShopeeItem where
  name : Option String
  price : Option ℚ
  historical_sold : Option Int
  rating_star : Option ℚ
  brand : Option String
  itemid : Option String
deriving DecidableEq

/-- An entry of the Shopee API items list: either a well-typed item or one
whose field accesses raise (TypeError/AttributeError), which the code does
not catch (only json.JSONDecodeError is caught). -/
inductive ShopeeEntry where
  | ok (it : ShopeeItem)
  | bad
deriving DecidableEq

/-- Record built from one Shopee API item (lines 125-145): price is the raw
payload value divided by 100000, defaulting to 0 when absent; specs carries
brand (default "Unknown") and model_id (default ""). -/
def shopeeConv (ts : String) (it : ShopeeItem) : Product :=
  { marketplace := "Shopee"
    name := it.name.getD ""
    price := it.price.getD 0 / 100000
    currency := "THB"
    specs := [("brand", it.brand.getD "Unknown"), ("model_id", it.itemid.getD "")]
    sales := it.historical_sold
    rating := it.rating_star
    timestamp := ts }

/-- The Shopee API item loop (lines 125-145): no per-item error handling, so
the first bad item aborts the whole call with an uncaught exception; note
that max_results is only sent in the request URL and is never enforced on
the parsed payload. -/
def shopeeApiItems (ts : String) : List ShopeeEntry → Except Unit (List Product)
  | [] => .ok []
  | .bad :: _ => .error ()
  | .ok it :: rest => (shopeeApiItems ts rest).map (shopeeConv ts it :: ·)

/-- An item of the Shopee HTML fallback page (lines 148-168): ok carries the
extracted name and the float() of the price text; bad is an item on which
find() returns None or float() raises, which propagates. -/
inductive HtmlEntry where
  | ok (name : String) (price : ℚ)
  | bad
deriving DecidableEq

/-- The Shopee HTML fallback loop (lines 152-168): items[:max_results], each
yielding a Record with specs Unknown/unknown placeholder; a bad item raises
past the function. -/
def shopeeHtmlItems (ts : String) : List HtmlEntry → Except Unit (List Product)
  | [] => .ok []
  | .bad :: _ => .error ()
  | .ok nm pr :: rest =>
    (shopeeHtmlItems ts rest).map
      ({ marketplace := "Shopee", name := nm, price := pr, currency := "THB"
         specs := [("unknown", "unknown")], sales := none, rating := none
         timestamp := ts } :: ·)

/-- The Shopee HTML fallback (lines 148-169): when the page was fetched, the
first max_results items are parsed; a missing page yields no results. -/
def shopeeHtmlPage (ts : String) (max_results : Nat) :
    Option (List HtmlEntry) → Except Unit (List Product)
  | none => .ok []
  | some items => shopeeHtmlItems ts (items.take max_results)

/-- parse_shopee (lines 98-169).  api = some entries models a fetched and
JSON-decoded API response (none covers both a failed fetch and a
json.JSONDecodeError, which is the only exception the function catches);
html models the fallback page.  The fallback runs only when the API path
produced no results without raising. -/
def parse_shopee (ts : String) (max_results : Nat)
    (api : Option (List ShopeeEntry)) (html : Option (List HtmlEntry)) :
    Except Unit (List Product) :=
  match api with
  | some entries =>
    match shopeeApiItems ts entries with
    | .error e => .error e
    | .ok rs => if rs.isEmpty then shopeeHtmlPage ts max_results html else .ok rs
  | none => shopeeHtmlPage ts max_results html

/-- One item of the Lazada embedded JSON payload (parse_lazada, lines
196-227), fields extracted with .get defaults. -/
structure LazItem where
  name : Option String
  priceValue : Option ℚ
  currencyCode : Option String
  ratingScore : Option ℚ
  soldCount : Option Int
  brandName : Option String
  sku : Option String
deriving DecidableEq

/-- An entry of the Lazada items list: bad is an item whose field accesses
raise; the surrounding try/except around the whole loop then stops the
iteration (keeping the records accumulated so far). -/
inductive LazEntry where
  | ok (it : LazItem)
  | bad
deriving DecidableEq

/-- Record built from one Lazada item (lines 207-227). -/
def lazConv (ts : String) (it : LazItem) : Product :=
  { marketplace := "Lazada"
    name := it.name.getD ""
    price := it.priceValue.getD 0
    currency := it.currencyCode.getD "THB"
    specs := [("brand", it.brandName.getD "Unknown"), ("sku", it.sku.getD "")]
    sales := it.soldCount
    rating := it.ratingScore
    timestamp := ts }

/-- The Lazada item loop body after products_data[:max_results] (lines
207-227): the whole loop sits in one try/except, so the first bad item ends
the loop and the function returns what was accumulated before it. -/
def lazLoop (ts : String) : List LazEntry → List Product
  | [] => []
  | .bad :: _ => []
  | .ok it :: rest => lazConv ts it :: lazLoop ts rest

/-- parse_lazada (lines 172-230): caps the item list at max_results, then
runs the loop; an exception inside the loop is caught and only logged. -/
def parse_lazada (ts : String) (max_results : Nat) (items : List LazEntry) :
    List Product :=
  lazLoop ts (items.take max_results)

/-- One ld+json Product block of the JD Central page (parse_jd_central,
lines 257-286). -/
structure JdItem where
  name : Option String
  offersPrice : Option ℚ
  priceCurrency : Option String
  ratingValue : Option ℚ
  brandName : Option String
  sku : Option String
deriving DecidableEq

/-- One script tag of the JD Central page: bad is a script whose JSON fails
to load or whose fields raise (caught per script by the continue branch);
notProduct is a well-formed block whose @type is not "Product". -/
inductive JdScript where
  | prod (it : JdItem)
  | notProduct
  | bad
deriving DecidableEq

/-- Record built from one JD Central Product block (lines 260-281): price is
float(offers.get("price", 0.0)), sales is always None. -/
def jdConv (ts : String) (it : JdItem) : Product :=
  { marketplace := "JD Central"
    name := it.name.getD ""
    price := it.offersPrice.getD 0
    currency := it.priceCurrency.getD "THB"
    specs := [("brand", it.brandName.getD "Unknown"), ("sku", it.sku.getD "")]
    sales := none
    rating := it.ratingValue
    timestamp := ts }

/-- The JD Central script loop (lines 257-285) with its accumulated results
list: a bad script is skipped by the except/continue, a non-Product block is
ignored, and after each append the loop breaks once len(results) >=
max_results. -/
def jdLoop (ts : String) (max_results : Nat) (acc : List Product) :
    List JdScript → List Product
  | [] => acc
  | .bad :: rest => jdLoop ts max_results acc rest
  | .notProduct :: rest => jdLoop ts max_results acc rest
  | .prod it :: rest =>
    let acc2 := acc ++ [jdConv ts it]
    if max_results ≤ acc2.length then acc2 else jdLoop ts max_results acc2 rest

/-- parse_jd_central (lines 233-286). -/
def parse_jd_central (ts : String) (max_results : Nat) (scripts : List JdScript) :
    List Product :=
  jdLoop ts max_results [] scripts

/-- Projection of a JD script to its Product payload, used to state which
records the loop keeps. -/
def jdProdOf : JdScript → Option JdItem
  | .prod it => some it
  | .notProduct => none
  | .bad => none

/-! ## Persistence layer -/

/-- save_to_db (lines 318-329): the database is the list of rows of the
products table; empty input returns before touching the store, otherwise
all rows are inserted by one executemany batch. -/
def save_to_db (products : List Product) (db : List Row) : List Row :=
  if products.isEmpty then db else db ++ products.map Product.as_tuple

/-- A line of the CSV export: the header row written by writeheader(), or a
data row whose cells are exactly the as_tuple fields (save_to_csv builds the
row from asdict with timestamp.isoformat() and json.dumps(specs), lines
349-357; a data row's price cell is a numeral, so it can never coincide with
the literal header text). -/
inductive CsvLine where
  | header
  | data (r : Row)
deriving DecidableEq

/-- save_to_csv (lines 332-357): opens the file in append mode, writes the
header only when f.tell() == 0, i.e. only when the file is empty, then one
row per product. -/
def save_to_csv (products : List Product) (file : List CsvLine) : List CsvLine :=
  file ++ (if file.isEmpty then [CsvLine.header] else [])
       ++ products.map (fun p => CsvLine.data p.as_tuple)

/-- Modelled from the spec: reading a row back from the store by
source+name+timestamp (the spec's round-trip property; the repository only
contains the writer side). -/
def read_back (db : List Row) (mk nm ts : String) : List Row :=
  db.filter fun r => decide (r.marketplace = mk ∧ r.name = nm ∧ r.timestamp = ts)

/-- Modelled from the spec: reconstruction of a Record from a stored row,
including exact reconstruction of the specs mapping from its JSON-encoded
form. -/
def decode_row (r : Row) : Option Product :=
  (json_loads r.specs).map fun sp =>
    { marketplace := r.marketplace
      name := r.name
      price := r.price
      currency := r.currency
      specs := sp
      sales := r.sales
      rating := r.rating
      timestamp := r.timestamp }

/-! ## Anomaly detector

detect_price_anomalies (lines 360-393) reads the full products table,
groups by (marketplace, name), sorts each group by timestamp, computes the
trailing rolling mean of price with window=window and min_periods=1, and
flags the group when the latest row satisfies
(rolling_mean - price) / rolling_mean >= threshold_pct.  The arithmetic is
numpy float arithmetic: dividing by a zero rolling mean yields +inf, -inf
or NaN (never a raised error), and any comparison with NaN is False.
FloatVal models exactly those values; finite arithmetic is exact here
(addition, division and comparison of the stored rationals). -/

inductive FloatVal where
  | fin (q : ℚ)
  | posInf
  | negInf
  | nan
deriving DecidableEq

/-- IEEE division for the drop fraction: a / 0 is +inf, -inf or NaN by the
sign of a, as numpy produces for float Series. -/
def fdiv (a b : ℚ) : FloatVal :=
  if b = 0 then
    if 0 < a then .posInf else if a < 0 then .negInf else .nan
  else .fin (a / b)

/-- IEEE comparison x >= t for the anomaly test: NaN compares False. -/
def fge (x : FloatVal) (t : ℚ) : Bool :=
  match x with
  | .fin q => decide (t ≤ q)
  | .posInf => true
  | .negInf => false
  | .nan => false

/-- Rolling mean of the final row of a series: the mean of the last
min(window, length) prices (rolling(window, min_periods=1).mean() at the
last position). -/
def lastWindowMean (window : Nat) (ps : List ℚ) : ℚ :=
  let k := min window ps.length
  (ps.drop (ps.length - k)).sum / (k : ℚ)

/-- Boolean timestamp comparison used to sort a group chronologically
(sort_values("timestamp"); ISO-8601 strings compare chronologically). -/
def timeLe (a b : String) : Bool := a == b || decide (a < b)

/-- Insertion of a row into a timestamp-sorted list. -/
def insertRow (r : Row) : List Row → List Row
  | [] => [r]
  | x :: xs => if timeLe x.timestamp r.timestamp then x :: insertRow r xs else r :: x :: xs

/-- Chronological sort of one group (group.sort_values("timestamp")). -/
def sortRows (l : List Row) : List Row := l.foldr insertRow []

/-- The rows of one (marketplace, name) group. -/
def seriesRows (db : List Row) (k : String × String) : List Row :=
  db.filter fun r => decide (r.marketplace = k.1 ∧ r.name = k.2)

/-- The distinct (marketplace, name) keys of the table (df.groupby emits
each distinct key once; its key ordering is immaterial to the properties
proved here). -/
def groupKeys (db : List Row) : List (String × String) :=
  (db.map fun r => (r.marketplace, r.name)).dedup

/-- One anomaly record {marketplace, name, current_price, rolling_mean,
drop_pct} (lines 384-392). -/
structure Anomaly where
  marketplace : String
  name : String
  current_price : ℚ
  rolling_mean : ℚ
  drop_pct : FloatVal
deriving DecidableEq

/-- The per-group body of detect_price_anomalies (lines 378-392): sort by
timestamp, take the latest row, compare its price against the rolling mean
over the trailing window. -/
def seriesCheck (window : Nat) (threshold_pct : ℚ) (db : List Row)
    (k : String × String) : Option Anomaly :=
  let g := sortRows (seriesRows db k)
  match g.getLast? with
  | none => none
  | some latest =>
    let ps := g.map Row.price
    let rm := lastWindowMean window ps
    let d := fdiv (rm - latest.price) rm
    if fge d threshold_pct then
      some { marketplace := k.1, name := k.2, current_price := latest.price
             rolling_mean := rm, drop_pct := d }
    else none

/-- detect_price_anomalies (lines 360-393). -/
def detect_price_anomalies (window : Nat) (threshold_pct : ℚ) (db : List Row) :
    List Anomaly :=
  (groupKeys db).filterMap (seriesCheck window threshold_pct db)

/-! ## Orchestrator

scrape_all (lines 396-425): for each keyword it invokes the three adapters
in order, each call wrapped in its own try/except that logs one error line;
at the end the aggregate is saved once to the database and once to the CSV
file, but only when it is non-empty.  The adapters' behaviour is abstracted
as a function from keyword and adapter to either a result list or a raised
exception, since it is determined by fetched payloads external to the
code. -/

inductive AdapterId where
  | shopee
  | lazada
  | jd
deriving DecidableEq

/-- The fixed order in which scrape_all invokes the adapters for each
keyword (lines 409-420). -/
def adapterCalls : List AdapterId := [.shopee, .lazada, .jd]

/-- Persistence actions performed by a run: the idempotent create_tables
call, then at most one save_to_db and one save_to_csv of the aggregate. -/
inductive PersistEvent where
  | schemaInit
  | dbWrite (products : List Product)
  | csvWrite (products : List Product)
deriving DecidableEq

/-- Observable outcome of scrape_all: the error log entries (one per adapter
invocation whose exception was caught, identified by keyword and adapter),
the aggregated records, and the persistence actions in order. -/
structure ScrapeOutcome where
  errorLog : List (String × AdapterId)
  products : List Product
  persistTrace : List PersistEvent
deriving DecidableEq

/-- One wrapped adapter invocation (one try/except block of lines 409-420):
a raising call contributes one error-log entry and no records. -/
def callAdapter (beh : String → AdapterId → Except Unit (List Product))
    (kw : String) (a : AdapterId) : List (String × AdapterId) × List Product :=
  match beh kw a with
  | .ok ps => ([], ps)
  | .error _ => ([(kw, a)], [])

/-- The loop body for one keyword: the three adapters in order, logs and
records concatenated in call order. -/
def kwRun (beh : String → AdapterId → Except Unit (List Product))
    (kw : String) : List (String × AdapterId) × List Product :=
  let s := callAdapter beh kw .shopee
  let l := callAdapter beh kw .lazada
  let j := callAdapter beh kw .jd
  (s.1 ++ l.1 ++ j.1, s.2 ++ l.2 ++ j.2)

/-- The keyword loop of scrape_all (lines 407-420). -/
def scrapeLoop (beh : String → AdapterId → Except Unit (List Product)) :
    List String → List (String × AdapterId) × List Product
  | [] => ([], [])
  | kw :: rest =>
    let h := kwRun beh kw
    let t := scrapeLoop beh rest
    (h.1 ++ t.1, h.2 ++ t.2)

/-- scrape_all (lines 396-425): create_tables first, the keyword loop, then
one save_to_db and one save_to_csv of the aggregate when it is non-empty
(an empty aggregate only logs a warning). -/
def scrape_all (beh : String → AdapterId → Except Unit (List Product))
    (keywords : List String) : ScrapeOutcome :=
  let r := scrapeLoop beh keywords
  { errorLog := r.1
    products := r.2
    persistTrace :=
      PersistEvent.schemaInit ::
        (if r.2.isEmpty then [] else [PersistEvent.dbWrite r.2, PersistEvent.csvWrite r.2]) }

/-- Run of leading well-typed Lazada items, used to state where the Lazada
loop stops: everything before the first bad item. -/
def lazOkRun : List LazEntry → List LazItem
  | [] => []
  | .bad :: _ => []
  | .ok it :: rest => it :: lazOkRun rest

/-! ## Concrete fixtures used by counterexamples and witnesses -/

/-- A stored observation of the running example series
("Shopee", "Phone X"). -/
def obs (ts : String) (price : ℚ) : Row :=
  { timestamp := ts, marketplace := "Shopee", name := "Phone X", price := price
    currency := "THB", specs := "\x7b\x7d", sales := none, rating := none }

/-- A record with specs content that exercises the JSON escaping. -/
def p0 : Product :=
  { marketplace := "Shopee", name := "Phone X", price := 24999 / 100
    currency := "THB", specs := [("brand", "Samsung"), ("note", "a\"b\\c\nd")]
    sales := some 5, rating := some (45 / 10), timestamp := "t1" }

/-- A Shopee API item whose payload has no price field. -/
def shNoPrice : ShopeeItem :=
  { name := some "Phone X", price := none, historical_sold := none
    rating_star := none, brand := none, itemid := none }

/-- Well-typed Shopee API items. -/
def shA : ShopeeItem :=
  { name := some "A", price := some 100000, historical_sold := none
    rating_star := none, brand := none, itemid := none }

def shB : ShopeeItem :=
  { name := some "B", price := some 200000, historical_sold := none
    rating_star := none, brand := none, itemid := none }

/-- Well-typed Lazada items. -/
def lazA : LazItem :=
  { name := some "A", priceValue := some 100, currencyCode := none
    ratingScore := none, soldCount := none, brandName := none, sku := none }

def lazB : LazItem :=
  { name := some "B", priceValue := some 200, currencyCode := none
    ratingScore := none, soldCount := none, brandName := none, sku := none }

/-- Adapter behaviour for the orchestrator witness: Shopee raises, Lazada
returns one record, JD Central returns none. -/
def beh0 : String → AdapterId → Except Unit (List Product) :=
  fun _ a =>
    match a with
    | .shopee => .error ()
    | .lazada => .ok [lazConv "t" lazA]
    | .jd => .ok []

/-! ## Helper lemmas: JSON round-trip -/

theorem hexVal_hexDigFin : ∀ k : Fin 16, hexVal (hexDig k.val) = some k.val := by decide

theorem hexVal_hexDig {n : Nat} (h : n < 16) : hexVal (hexDig n) = some n :=
  hexVal_hexDigFin ⟨n, h⟩

theorem scanString_escList (l : List Char) : ∀ (fuel : Nat) (rest : List Char),
    l.length + 1 ≤ fuel →
    scanString fuel (escList l ++ '"' :: rest) = some (l, rest) := by
  induction l with
  | nil =>
    intro fuel rest hf
    obtain ⟨f, rfl⟩ : ∃ f, fuel = f + 1 := ⟨fuel - 1, by omega⟩
    simp [escList, scanString]
  | cons c l ih =>
    intro fuel rest hf
    obtain ⟨f, rfl⟩ : ∃ f, fuel = f + 1 := ⟨fuel - 1, by omega⟩
    have hf' : l.length + 1 ≤ f := by simp at hf; omega
    have hl := ih f rest hf'
    have hesc : escList (c :: l) = escChar c ++ escList l := by simp [escList]
    rw [hesc]
    by_cases h1 : c = '\\'
    · subst h1; simp [escChar, scanString, unescChar, hl]
    by_cases h2 : c = '"'
    · subst h2; simp [escChar, scanString, unescChar, hl]
    by_cases h3 : c = '\x08'
    · subst h3; simp [escChar, scanString, unescChar, hl]
    by_cases h4 : c = '\x0c'
    · subst h4; simp [escChar, scanString, unescChar, hl]
    by_cases h5 : c = '\n'
    · subst h5; simp [escChar, scanString, unescChar, hl]
    by_cases h6 : c = '\r'
    · subst h6; simp [escChar, scanString, unescChar, hl]
    by_cases h7 : c = '\t'
    · subst h7; simp [escChar, scanString, unescChar, hl]
    by_cases h8 : c.toNat < 32
    · have e1 : hexVal (hexDig (c.toNat / 16)) = some (c.toNat / 16) :=
        hexVal_hexDig (by omega)
      have e2 : hexVal (hexDig (c.toNat % 16)) = some (c.toNat % 16) :=
        hexVal_hexDig (by omega)
      have e0 : hexVal '0' = some 0 := by decide
      have e3 : c.toNat / 16 * 16 + c.toNat % 16 = c.toNat := by omega
      simp [escChar, h1, h2, h3, h4, h5, h6, h7, h8, scanString, e0, e1, e2, hl, e3,
        Char.ofNat_toNat]
    · simp [escChar, h1, h2, h3, h4, h5, h6, h7, h8, scanString, hl]

theorem escList_length_ge (l : List Char) : l.length ≤ (escList l).length := by
  induction l with
  | nil => simp [escList]
  | cons c l ih =>
    have hc : 1 ≤ (escChar c).length := by
      unfold escChar; split_ifs <;> simp
    have hst : escList (c :: l) = escChar c ++ escList l := by simp [escList]
    rw [hst]
    simp only [List.length_append, List.length_cons]
    omega

theorem parseEntries_dumpBody : ∀ (l : List (List Char × List Char)) (fuel : Nat),
    l ≠ [] → l.length ≤ fuel →
    parseEntries fuel (dumpBody l) = some l := by
  intro l
  induction l with
  | nil => intro fuel h; exact absurd rfl h
  | cons kv rest ih =>
    intro fuel _ hlen
    obtain ⟨f, rfl⟩ : ∃ f, fuel = f + 1 := ⟨fuel - 1, by simp at hlen; omega⟩
    obtain ⟨k, v⟩ := kv
    cases rest with
    | nil =>
      show parseEntries (f + 1) (dumpBody [(k, v)]) = some [(k, v)]
      have hshape : dumpBody [(k, v)] =
          '"' :: (escList k ++ '"' ::
            (':' :: ' ' :: '"' :: (escList v ++ '"' :: ['\x7d']))) := by
        simp [dumpBody, encEntry]
      have hk := scanString_escList k
        (escList k ++ '"' :: (':' :: ' ' :: '"' :: (escList v ++ '"' :: ['\x7d']))).length
        (':' :: ' ' :: '"' :: (escList v ++ '"' :: ['\x7d']))
        (by simp; have := escList_length_ge k; omega)
      have hv := scanString_escList v (escList v ++ '"' :: ['\x7d']).length ['\x7d']
        (by simp; have := escList_length_ge v; omega)
      rw [hshape]
      simp only [parseEntries]
      rw [hk]
      simp only [Option.bind_eq_bind, Option.some_bind, Option.pure_def]
      rw [hv]
      simp only [Option.bind_eq_bind, Option.some_bind, Option.pure_def]
    | cons kv2 rest2 =>
      show parseEntries (f + 1) (dumpBody ((k, v) :: kv2 :: rest2)) = _
      have hshape : dumpBody ((k, v) :: kv2 :: rest2) =
          '"' :: (escList k ++ '"' ::
            (':' :: ' ' :: '"' :: (escList v ++ '"' :: ',' :: ' ' :: dumpBody (kv2 :: rest2)))) := by
        simp [dumpBody, encEntry]
      have hk := scanString_escList k
        (escList k ++ '"' ::
          (':' :: ' ' :: '"' :: (escList v ++ '"' :: ',' :: ' ' :: dumpBody (kv2 :: rest2)))).length
        (':' :: ' ' :: '"' :: (escList v ++ '"' :: ',' :: ' ' :: dumpBody (kv2 :: rest2)))
        (by simp; have := escList_length_ge k; omega)
      have hv := scanString_escList v
        (escList v ++ '"' :: ',' :: ' ' :: dumpBody (kv2 :: rest2)).length
        (',' :: ' ' :: dumpBody (kv2 :: rest2))
        (by simp; have := escList_length_ge v; omega)
      have hrest := ih f (by simp) (by simp at hlen ⊢; omega)
      rw [hshape]
      simp only [parseEntries]
      rw [hk]
      simp only [Option.bind_eq_bind, Option.some_bind, Option.pure_def]
      rw [hv]
      simp only [Option.bind_eq_bind, Option.some_bind, Option.pure_def]
      rw [hrest]
      simp only [Option.bind_eq_bind, Option.some_bind, Option.pure_def]

theorem dumpBody_length_ge : ∀ l : List (List Char × List Char), l.length ≤ (dumpBody l).length := by
  intro l
  induction l with
  | nil => simp [dumpBody]
  | cons kv rest ih =>
    cases rest with
    | nil => simp [dumpBody, encEntry]
    | cons kv2 rest2 =>
      have hd : dumpBody (kv :: kv2 :: rest2) = encEntry kv ++ ',' :: ' ' :: dumpBody (kv2 :: rest2) := by
        simp [dumpBody]
      rw [hd]
      simp only [List.length_append, List.length_cons] at ih ⊢
      omega

theorem jsonLoadsChars_dumpsList (l : List (List Char × List Char)) :
    jsonLoadsChars (jsonDumpsList l) = some l := by
  cases l with
  | nil => simp [jsonDumpsList, dumpBody, jsonLoadsChars]
  | cons kv rest =>
    have hne : dumpBody (kv :: rest) ≠ ['\x7d'] := by
      cases rest <;> simp [dumpBody, encEntry]
    show jsonLoadsChars ('\x7b' :: dumpBody (kv :: rest)) = _
    simp only [jsonLoadsChars, if_neg hne]
    exact parseEntries_dumpBody (kv :: rest) (dumpBody (kv :: rest)).length (by simp)
      (dumpBody_length_ge (kv :: rest))

theorem json_loads_dumps (specs : List (String × String)) :
    json_loads (json_dumps specs) = some specs := by
  show (jsonLoadsChars (String.data ⟨jsonDumpsList (specs.map fun kv => (kv.1.data, kv.2.data))⟩)).map
      (List.map fun kv => (⟨kv.1⟩, ⟨kv.2⟩)) = some specs
  rw [show (String.data ⟨jsonDumpsList (specs.map fun kv => (kv.1.data, kv.2.data))⟩ : List Char)
      = jsonDumpsList (specs.map fun kv => (kv.1.data, kv.2.data)) from rfl]
  rw [jsonLoadsChars_dumpsList]
  simp only [Option.map_some', List.map_map]
  congr 1
  induction specs with
  | nil => rfl
  | cons kv rest ih =>
    obtain ⟨⟨a⟩, ⟨b⟩⟩ := kv
    simpa using ih

/-! ## Persistence and detector: direct theorems and counterexamples -/

/-- C8: save_to_db is a no-op on an empty record list; on any list it appends
exactly one new row per Record at the end of the table in a single batch,
leaving every previously existing row unchanged (no update or delete). -/
theorem save_to_db_frame (db : List Row) (products : List Product) :
    save_to_db [] db = db
  ∧ save_to_db products db = db ++ products.map Product.as_tuple
  ∧ (save_to_db products db).take db.length = db
  ∧ (save_to_db products db).length = db.length + products.length := by
  refine ⟨by simp [save_to_db], ?_, ?_, ?_⟩
  · cases products <;> simp [save_to_db]
  · cases products <;> simp [save_to_db, List.take_left]
  · cases products <;> simp [save_to_db]

/-- C7: appending Records to a zero-length export file writes exactly one
header row followed by one data row per Record; a subsequent append to the
now non-empty file writes only data rows, and the file still contains exactly
one header row. -/
theorem save_to_csv_header_policy (ps qs : List Product) :
    save_to_csv ps [] = CsvLine.header :: ps.map (fun p => CsvLine.data p.as_tuple)
  ∧ save_to_csv qs (save_to_csv ps []) =
      save_to_csv ps [] ++ qs.map (fun p => CsvLine.data p.as_tuple)
  ∧ (save_to_csv qs (save_to_csv ps [])).count CsvLine.header = 1 := by
  have h1 : save_to_csv ps [] = CsvLine.header :: ps.map (fun p => CsvLine.data p.as_tuple) := by
    simp [save_to_csv]
  have h2 : save_to_csv qs (save_to_csv ps []) =
      save_to_csv ps [] ++ qs.map (fun p => CsvLine.data p.as_tuple) := by
    rw [h1]
    simp [save_to_csv]
  have hz : ∀ rs : List Product,
      (rs.map (fun p => CsvLine.data p.as_tuple)).count CsvLine.header = 0 := by
    intro rs
    rw [List.count_eq_zero]
    intro hmem
    obtain ⟨p, _, habs⟩ := List.mem_map.mp hmem
    simp at habs
  refine ⟨h1, h2, ?_⟩
  rw [h2, h1]
  simp [List.count_append, List.count_cons, hz]

/-- C4: on the series [1000, 1000, 1000, 1000, 600] with window=5 the latest
observation's rolling mean is 920 and its drop fraction (920-600)/920 = 8/23,
which exceeds threshold 0.05, so exactly that series is emitted; the constant
series [1000, 1000, 1000, 1000, 1000] emits no anomaly. -/
theorem anomaly_running_example :
    detect_price_anomalies 5 (1 / 20)
      [obs "t1" 1000, obs "t2" 1000, obs "t3" 1000, obs "t4" 1000, obs "t5" 600] =
      [{ marketplace := "Shopee", name := "Phone X", current_price := 600
         rolling_mean := 920, drop_pct := FloatVal.fin (8 / 23) }]
  ∧ detect_price_anomalies 5 (1 / 20)
      [obs "t1" 1000, obs "t2" 1000, obs "t3" 1000, obs "t4" 1000, obs "t5" 1000] = [] := by
  constructor <;>
    norm_num +decide [detect_price_anomalies, groupKeys, seriesCheck, seriesRows, sortRows,
      insertRow, timeLe, lastWindowMean, fdiv, fge, obs, List.filterMap_cons, List.filter_cons]

/-- C3 counterexample: with threshold 0 a single-observation group IS emitted
as an anomaly (its drop fraction 0 satisfies 0 >= 0), so "never emitted for
every threshold value" fails as stated. -/
theorem single_observation_flagged_at_zero_threshold :
    detect_price_anomalies 5 0 [obs "t1" 1000] =
      [{ marketplace := "Shopee", name := "Phone X", current_price := 1000
         rolling_mean := 1000, drop_pct := FloatVal.fin 0 }] := by
  norm_num +decide [detect_price_anomalies, groupKeys, seriesCheck, seriesRows, sortRows,
    insertRow, timeLe, lastWindowMean, fdiv, fge, obs, List.filterMap_cons, List.filter_cons]

/-- C10 counterexample: a group whose latest rolling mean is zero but whose
latest stored price is negative ([600, -600], mean 0) has drop fraction +inf
and IS flagged, so the claim fails for arbitrary stored prices (no division
error occurs; the model's fdiv is total, mirroring numpy). -/
theorem zero_mean_negative_price_flagged :
    lastWindowMean 5 [600, -600] = 0
  ∧ detect_price_anomalies 5 (1 / 5) [obs "t1" 600, obs "t2" (-600)] =
      [{ marketplace := "Shopee", name := "Phone X", current_price := -600
         rolling_mean := 0, drop_pct := FloatVal.posInf }] := by
  constructor
  · norm_num [lastWindowMean]
  · norm_num +decide [detect_price_anomalies, groupKeys, seriesCheck, seriesRows, sortRows,
      insertRow, timeLe, lastWindowMean, fdiv, fge, obs, List.filterMap_cons, List.filter_cons]

/-- C1 counterexample: a Shopee API item whose payload has no price field is
not dropped; it is emitted with the default price 0 (model.get("price", 0)). -/
theorem shopee_missing_price_emitted :
    parse_shopee "t" 10 (some [.ok shNoPrice]) none =
      .ok [{ marketplace := "Shopee", name := "Phone X", price := 0, currency := "THB"
             specs := [("brand", "Unknown"), ("model_id", "")], sales := none
             rating := none, timestamp := "t" }] := by
  norm_num [parse_shopee, shopeeApiItems, shopeeConv, shNoPrice, Except.map, shopeeHtmlPage]

/-- C2 counterexample: with max_results = 1 the Shopee API path returns 2
records; the limit is only sent in the request URL and is never enforced on
the parsed payload. -/
theorem shopee_api_exceeds_cap :
    (parse_shopee "t" 1 (some [.ok shA, .ok shB]) none).map List.length = .ok 2 := by
  norm_num [parse_shopee, shopeeApiItems, shopeeConv, shA, shB, Except.map]

/-- C5 counterexample: a bad item in the middle of a Lazada batch does not
merely skip that item: parsing stops and the later well-formed item lazB is
missing from the result; and in parse_shopee a bad item makes the whole call
raise (only json.JSONDecodeError is caught). -/
theorem lazada_aborts_rest_of_batch :
    parse_lazada "t" 10 [.ok lazA, .bad, .ok lazB] = [lazConv "t" lazA]
  ∧ lazConv "t" lazB ∉ parse_lazada "t" 10 [.ok lazA, .bad, .ok lazB]
  ∧ shopeeApiItems "t" [.ok shA, .bad] = .error () := by
  refine ⟨rfl, ?_, rfl⟩
  decide

/-! ## Helper lemmas: adapters -/

theorem jdLoop_eq (ts : String) (m : Nat) :
    ∀ (scripts : List JdScript) (acc : List Product), acc.length < m →
    jdLoop ts m acc scripts =
      acc ++ ((scripts.filterMap jdProdOf).map (jdConv ts)).take (m - acc.length) := by
  intro scripts
  induction scripts with
  | nil => intro acc _; simp [jdLoop]
  | cons s rest ih =>
    intro acc hacc
    cases s with
    | bad => simpa [jdLoop, jdProdOf] using ih acc hacc
    | notProduct => simpa [jdLoop, jdProdOf] using ih acc hacc
    | prod it =>
      show jdLoop ts m acc (JdScript.prod it :: rest) = _
      rw [jdLoop]
      simp only [jdProdOf, List.filterMap_cons]
      by_cases hfull : m ≤ (acc ++ [jdConv ts it]).length
      · rw [if_pos hfull]
        have hm1 : m - acc.length = 1 := by
          simp only [List.length_append, List.length_cons, List.length_nil] at hfull
          omega
        rw [hm1]
        simp
      · rw [if_neg hfull]
        have h2 : (acc ++ [jdConv ts it]).length < m := by
          simp only [List.length_append, List.length_cons, List.length_nil] at hfull ⊢
          omega
        rw [ih _ h2]
        have hm2 : m - acc.length = (m - (acc ++ [jdConv ts it]).length) + 1 := by
          simp only [List.length_append, List.length_cons, List.length_nil] at h2 ⊢
          omega
        rw [hm2]
        simp [List.take_succ_cons]

theorem parse_jd_central_eq (ts : String) (m : Nat) (scripts : List JdScript) (hm : 1 ≤ m) :
    parse_jd_central ts m scripts = ((scripts.filterMap jdProdOf).map (jdConv ts)).take m := by
  have := jdLoop_eq ts m scripts [] (by simpa using hm)
  simpa [parse_jd_central] using this

theorem lazLoop_eq (ts : String) (l : List LazEntry) :
    lazLoop ts l = (lazOkRun l).map (lazConv ts) := by
  induction l with
  | nil => simp [lazLoop, lazOkRun]
  | cons e rest ih =>
    cases e with
    | bad => simp [lazLoop, lazOkRun]
    | ok it => simp [lazLoop, lazOkRun, ih]

theorem lazOkRun_length_le (l : List LazEntry) : (lazOkRun l).length ≤ l.length := by
  induction l with
  | nil => simp [lazOkRun]
  | cons e rest ih =>
    cases e with
    | bad => simp [lazOkRun]
    | ok it => simpa [lazOkRun] using ih

theorem shopeeHtmlItems_ok_length (ts : String) :
    ∀ (l : List HtmlEntry) (rs : List Product),
      shopeeHtmlItems ts l = .ok rs → rs.length ≤ l.length := by
  intro l
  induction l with
  | nil => intro rs h; simp [shopeeHtmlItems] at h; simp [h]
  | cons e rest ih =>
    intro rs h
    cases e with
    | bad => simp [shopeeHtmlItems] at h
    | ok nm pr =>
      rw [shopeeHtmlItems] at h
      cases hrec : shopeeHtmlItems ts rest with
      | error e => rw [hrec] at h; simp [Except.map] at h
      | ok rs2 =>
        rw [hrec] at h
        simp [Except.map] at h
        have := ih rs2 hrec
        simp [← h]
        omega

theorem shopeeApiItems_error_iff (ts : String) :
    ∀ l : List ShopeeEntry, shopeeApiItems ts l = .error () ↔ ShopeeEntry.bad ∈ l := by
  intro l
  induction l with
  | nil => simp [shopeeApiItems]
  | cons e rest ih =>
    cases e with
    | bad => simp [shopeeApiItems]
    | ok it =>
      rw [shopeeApiItems]
      cases hrec : shopeeApiItems ts rest with
      | error e => simp [Except.map, hrec, ← ih]
      | ok rs => simp [Except.map, hrec, ← ih, hrec]

theorem shopeeApiItems_ok_mem (ts : String) :
    ∀ (l : List ShopeeEntry) (rs : List Product), shopeeApiItems ts l = .ok rs →
      ∀ p ∈ rs, ∃ it, ShopeeEntry.ok it ∈ l ∧ p = shopeeConv ts it := by
  intro l
  induction l with
  | nil => intro rs h; simp [shopeeApiItems] at h; simp [h]
  | cons e rest ih =>
    intro rs h
    cases e with
    | bad => simp [shopeeApiItems] at h
    | ok it =>
      rw [shopeeApiItems] at h
      cases hrec : shopeeApiItems ts rest with
      | error e => rw [hrec] at h; simp [Except.map] at h
      | ok rs2 =>
        rw [hrec] at h
        simp only [Except.map, Except.ok.injEq] at h
        subst h
        intro p hp
        rcases List.mem_cons.mp hp with hp | hp
        · exact ⟨it, by simp, hp⟩
        · obtain ⟨it2, hmem, hq⟩ := ih rs2 hrec p hp
          exact ⟨it2, by simp [hmem], hq⟩

theorem shopeeHtmlItems_ok_mem (ts : String) :
    ∀ (l : List HtmlEntry) (rs : List Product), shopeeHtmlItems ts l = .ok rs →
      ∀ p ∈ rs, ∃ nm pr, HtmlEntry.ok nm pr ∈ l ∧ p.price = pr := by
  intro l
  induction l with
  | nil => intro rs h; simp [shopeeHtmlItems] at h; simp [h]
  | cons e rest ih =>
    intro rs h
    cases e with
    | bad => simp [shopeeHtmlItems] at h
    | ok nm pr =>
      rw [shopeeHtmlItems] at h
      cases hrec : shopeeHtmlItems ts rest with
      | error e => rw [hrec] at h; simp [Except.map] at h
      | ok rs2 =>
        rw [hrec] at h
        simp only [Except.map, Except.ok.injEq] at h
        subst h
        intro p hp
        rcases List.mem_cons.mp hp with hp | hp
        · exact ⟨nm, pr, by simp, by simp [hp]⟩
        · obtain ⟨nm2, pr2, hmem, hq⟩ := ih rs2 hrec p hp
          exact ⟨nm2, pr2, by simp [hmem], hq⟩

theorem jdLoop_mem (ts : String) (m : Nat) :
    ∀ (scripts : List JdScript) (acc : List Product) (p : Product),
      p ∈ jdLoop ts m acc scripts →
      p ∈ acc ∨ ∃ it, JdScript.prod it ∈ scripts ∧ p = jdConv ts it := by
  intro scripts
  induction scripts with
  | nil => intro acc p h; simp [jdLoop] at h; exact Or.inl h
  | cons s rest ih =>
    intro acc p h
    cases s with
    | bad =>
      rcases ih acc p (by simpa [jdLoop] using h) with h2 | ⟨it, hmem, hq⟩
      · exact Or.inl h2
      · exact Or.inr ⟨it, by simp [hmem], hq⟩
    | notProduct =>
      rcases ih acc p (by simpa [jdLoop] using h) with h2 | ⟨it, hmem, hq⟩
      · exact Or.inl h2
      · exact Or.inr ⟨it, by simp [hmem], hq⟩
    | prod it =>
      rw [jdLoop] at h
      by_cases hfull : m ≤ (acc ++ [jdConv ts it]).length
      · rw [if_pos hfull] at h
        rcases List.mem_append.mp h with h2 | h2
        · exact Or.inl h2
        · exact Or.inr ⟨it, by simp, by simpa using h2⟩
      · rw [if_neg hfull] at h
        rcases ih (acc ++ [jdConv ts it]) p h with h2 | ⟨it2, hmem, hq⟩
        · rcases List.mem_append.mp h2 with h3 | h3
          · exact Or.inl h3
          · exact Or.inr ⟨it, by simp, by simpa using h3⟩
        · exact Or.inr ⟨it2, by simp [hmem], hq⟩

theorem lazOkRun_mem : ∀ (l : List LazEntry) (it : LazItem),
    it ∈ lazOkRun l → LazEntry.ok it ∈ l := by
  intro l
  induction l with
  | nil => intro it h; simp [lazOkRun] at h
  | cons e rest ih =>
    intro it h
    cases e with
    | bad => simp [lazOkRun] at h
    | ok it2 =>
      rcases List.mem_cons.mp (by simpa [lazOkRun] using h) with h2 | h2
      · simp [h2]
      · simp [ih it h2]

theorem shopeeHtmlPage_price_nonneg (ts : String) (m : Nat)
    (html : Option (List HtmlEntry))
    (hhtml : ∀ l, html = some l → ∀ nm pr, HtmlEntry.ok nm pr ∈ l → 0 ≤ pr) :
    ∀ rs, shopeeHtmlPage ts m html = .ok rs → ∀ p ∈ rs, 0 ≤ p.price := by
  intro rs h p hp
  cases html with
  | none => simp [shopeeHtmlPage] at h; simp [h] at hp
  | some items =>
    obtain ⟨nm, pr, hmem, hpr⟩ :=
      shopeeHtmlItems_ok_mem ts (items.take m) rs (by simpa [shopeeHtmlPage] using h) p hp
    rw [hpr]
    exact hhtml items rfl nm pr (List.mem_of_mem_take hmem)

/-- C1 amended: the adapters never drop an item for its price; an absent
price becomes the default 0, and the emitted price is non-negative whenever
every price value in the fetched payload is non-negative (Shopee divides the
raw value by 100000, Lazada and JD Central take it as is). -/
theorem adapters_price_nonneg (ts : String) (m : Nat)
    (api : Option (List ShopeeEntry)) (html : Option (List HtmlEntry))
    (laz : List LazEntry) (jd : List JdScript)
    (hapi : ∀ l, api = some l → ∀ it, ShopeeEntry.ok it ∈ l → 0 ≤ it.price.getD 0)
    (hhtml : ∀ l, html = some l → ∀ nm pr, HtmlEntry.ok nm pr ∈ l → 0 ≤ pr)
    (hlaz : ∀ it, LazEntry.ok it ∈ laz → 0 ≤ it.priceValue.getD 0)
    (hjd : ∀ it, JdScript.prod it ∈ jd → 0 ≤ it.offersPrice.getD 0) :
    (∀ rs, parse_shopee ts m api html = .ok rs → ∀ p ∈ rs, 0 ≤ p.price)
  ∧ (∀ p ∈ parse_lazada ts m laz, 0 ≤ p.price)
  ∧ (∀ p ∈ parse_jd_central ts m jd, 0 ≤ p.price) := by
  refine ⟨?_, ?_, ?_⟩
  · intro rs h p hp
    cases api with
    | none =>
      exact shopeeHtmlPage_price_nonneg ts m html hhtml rs
        (by simpa [parse_shopee] using h) p hp
    | some entries =>
      rw [parse_shopee] at h
      cases hrec : shopeeApiItems ts entries with
      | error e => rw [hrec] at h; exact absurd h (by simp)
      | ok rs0 =>
        rw [hrec] at h
        cases rs0 with
        | nil =>
          simp only [List.isEmpty_nil, if_true] at h
          exact shopeeHtmlPage_price_nonneg ts m html hhtml rs h p hp
        | cons q qs =>
          simp only [List.isEmpty_cons, Bool.false_eq_true, if_false, Except.ok.injEq] at h
          subst h
          obtain ⟨it, hmem, hq⟩ := shopeeApiItems_ok_mem ts entries (q :: qs) hrec p hp
          rw [hq]
          have := hapi entries rfl it hmem
          show 0 ≤ it.price.getD 0 / 100000
          positivity
  · intro p hp
    rw [parse_lazada, lazLoop_eq] at hp
    obtain ⟨it, hmem, hq⟩ := List.mem_map.mp hp
    have h2 := lazOkRun_mem _ it hmem
    have h3 := hlaz it (List.mem_of_mem_take h2)
    rw [← hq]
    exact h3
  · intro p hp
    rcases jdLoop_mem ts m jd [] p (by simpa [parse_jd_central] using hp) with h2 | ⟨it, hmem, hq⟩
    · simp at h2
    · rw [hq]
      exact hjd it hmem

theorem adapters_price_nonneg_witness :
    (∀ rs, parse_shopee "t" 2 (some [.ok shA]) none = .ok rs → ∀ p ∈ rs, 0 ≤ p.price)
  ∧ (∀ p ∈ parse_lazada "t" 2 [.ok lazA], 0 ≤ p.price)
  ∧ (∀ p ∈ parse_jd_central "t" 2 [], 0 ≤ p.price) :=
  adapters_price_nonneg "t" 2 (some [.ok shA]) none [.ok lazA] []
    (by intro l hl it hmem
        injection hl with hl
        subst hl
        simp at hmem
        subst hmem
        norm_num [shA])
    (by intro l hl; simp at hl)
    (by intro it hmem
        simp at hmem
        subst hmem
        norm_num [lazA])
    (by intro it hmem; simp at hmem)

/-- C2 amended: parse_lazada and the Shopee HTML fallback truncate their
result lists to max_results, and parse_jd_central stops once max_results is
reached, so for max_results >= 1 each of the three returns at most
max_results records (the Shopee API path, by contrast, only sends the limit
in the request URL; see the counterexample). -/
theorem adapters_cap_results (ts : String) (m : Nat) (laz : List LazEntry)
    (html : List HtmlEntry) (jd : List JdScript) (hm : 1 ≤ m) :
    (parse_lazada ts m laz).length ≤ m
  ∧ (∀ rs, shopeeHtmlPage ts m (some html) = .ok rs → rs.length ≤ m)
  ∧ (parse_jd_central ts m jd).length ≤ m := by
  refine ⟨?_, ?_, ?_⟩
  · rw [parse_lazada, lazLoop_eq]
    have h1 := lazOkRun_length_le (laz.take m)
    have h2 : (laz.take m).length ≤ m := by simp
    simp only [List.length_map]
    omega
  · intro rs h
    have h1 := shopeeHtmlItems_ok_length ts (html.take m) rs (by simpa [shopeeHtmlPage] using h)
    have h2 : (html.take m).length ≤ m := by simp
    omega
  · rw [parse_jd_central_eq ts m jd hm]
    simp

theorem adapters_cap_results_witness :
    (parse_lazada "t" 1 [.ok lazA, .ok lazB]).length ≤ 1
  ∧ (∀ rs, shopeeHtmlPage "t" 1 (some []) = .ok rs → rs.length ≤ 1)
  ∧ (parse_jd_central "t" 1 []).length ≤ 1 :=
  adapters_cap_results "t" 1 [.ok lazA, .ok lazB] [] [] (by norm_num)

/-- C5 amended: only parse_jd_central has per-item isolation: a failing
script is skipped and every parseable Product block is kept (up to the cap);
parse_lazada stops at the first failing item and returns exactly the records
of the longest well-formed item run before it; and in parse_shopee a bad
item aborts the whole call with an uncaught exception exactly when the
payload contains one. -/
theorem per_item_failure_semantics (ts : String) (m : Nat) (scripts : List JdScript)
    (laz : List LazEntry) (entries : List ShopeeEntry) (hm : 1 ≤ m) :
    parse_jd_central ts m scripts = ((scripts.filterMap jdProdOf).map (jdConv ts)).take m
  ∧ parse_lazada ts m laz = (lazOkRun (laz.take m)).map (lazConv ts)
  ∧ (shopeeApiItems ts entries = .error () ↔ ShopeeEntry.bad ∈ entries) :=
  ⟨parse_jd_central_eq ts m scripts hm, by rw [parse_lazada, lazLoop_eq],
    shopeeApiItems_error_iff ts entries⟩

theorem per_item_failure_semantics_witness :
    parse_jd_central "t" 5 ([.bad, .notProduct] : List JdScript) =
      ((([.bad, .notProduct] : List JdScript).filterMap jdProdOf).map (jdConv "t")).take 5
  ∧ parse_lazada "t" 5 ([.ok lazA, .bad] : List LazEntry) =
      (lazOkRun (([.ok lazA, .bad] : List LazEntry).take 5)).map (lazConv "t")
  ∧ (shopeeApiItems "t" ([.ok shA, .bad] : List ShopeeEntry) = .error () ↔
      ShopeeEntry.bad ∈ ([.ok shA, .bad] : List ShopeeEntry)) :=
  per_item_failure_semantics "t" 5 [.bad, .notProduct] [.ok lazA, .bad] [.ok shA, .bad]
    (by norm_num)

/-! ## Helper lemmas: detector -/

theorem seriesCheck_key {w : Nat} {t : ℚ} {db : List Row} {k : String × String} {a : Anomaly}
    (h : seriesCheck w t db k = some a) : a.marketplace = k.1 ∧ a.name = k.2 := by
  simp only [seriesCheck] at h
  split at h
  · exact absurd h (by simp)
  · split at h
    · injection h with h
      subst h
      exact ⟨rfl, rfl⟩
    · exact absurd h (by simp)

theorem mem_insertRow (r x : Row) : ∀ l, x ∈ insertRow r l ↔ x = r ∨ x ∈ l := by
  intro l
  induction l with
  | nil => simp [insertRow]
  | cons y ys ih =>
    rw [insertRow]
    cases hc : timeLe y.timestamp r.timestamp with
    | true => simp [hc, ih]; tauto
    | false => simp [hc, ih]

theorem mem_sortRows (x : Row) : ∀ l, x ∈ sortRows l ↔ x ∈ l := by
  intro l
  induction l with
  | nil => simp [sortRows]
  | cons y ys ih =>
    show x ∈ insertRow y (ys.foldr insertRow []) ↔ _
    rw [mem_insertRow]
    simp only [List.mem_cons]
    rw [show (ys.foldr insertRow [] : List Row) = sortRows ys from rfl, ih]

theorem seriesCheck_single {w : Nat} {t : ℚ} {db : List Row} {mk nm : String} {r : Row}
    (hw : 1 ≤ w) (ht : 0 < t) (hone : seriesRows db (mk, nm) = [r]) :
    seriesCheck w t db (mk, nm) = none := by
  simp only [seriesCheck, hone]
  have hs : sortRows [r] = [r] := rfl
  rw [hs]
  simp only [List.getLast?_singleton, List.map_cons, List.map_nil]
  have hmean : lastWindowMean w [r.price] = r.price := by
    simp only [lastWindowMean, List.length_cons, List.length_nil, Nat.zero_add]
    rw [Nat.min_eq_right hw]
    simp
  rw [hmean, sub_self]
  have hfd : fge (fdiv 0 r.price) t = false := by
    by_cases hp : r.price = 0
    · simp [fdiv, hp, fge]
    · simp [fdiv, hp, fge, zero_div]
      linarith
  rw [hfd]
  simp

/-- C3 amended: a (source, name) group with exactly one observation is never
emitted by detect_price_anomalies for any window >= 1 (pandas rejects
smaller windows) and any strictly positive threshold: its rolling mean
equals its single observed price, so the drop fraction is 0 (or NaN for a
zero price) and the comparison with a positive threshold fails.  A zero or
negative threshold does flag it; see the counterexample. -/
theorem single_observation_not_flagged (db : List Row) (w : Nat) (t : ℚ) (mk nm : String)
    (hw : 1 ≤ w) (ht : 0 < t) (hone : (seriesRows db (mk, nm)).length = 1) :
    ∀ a ∈ detect_price_anomalies w t db, ¬(a.marketplace = mk ∧ a.name = nm) := by
  intro a ha hkey
  obtain ⟨k, hkmem, hsome⟩ := List.mem_filterMap.mp ha
  obtain ⟨e1, e2⟩ := seriesCheck_key hsome
  obtain ⟨k1, k2⟩ := k
  simp only at e1 e2
  have hk1 : k1 = mk := by rw [← e1]; exact hkey.1
  have hk2 : k2 = nm := by rw [← e2]; exact hkey.2
  subst hk1
  subst hk2
  obtain ⟨r, hr⟩ := List.length_eq_one.mp hone
  rw [seriesCheck_single hw ht hr] at hsome
  exact absurd hsome (by simp)

theorem single_observation_not_flagged_witness :
    (1 ≤ 5 ∧ (0 : ℚ) < 1 / 5 ∧ (seriesRows [obs "t1" 1000] ("Shopee", "Phone X")).length = 1)
  ∧ (∀ a ∈ detect_price_anomalies 5 (1 / 5) [obs "t1" 1000],
      ¬(a.marketplace = "Shopee" ∧ a.name = "Phone X")) :=
  ⟨⟨by norm_num, by norm_num, by norm_num +decide [seriesRows, obs, List.filter_cons]⟩,
    single_observation_not_flagged [obs "t1" 1000] 5 (1 / 5) "Shopee" "Phone X"
      (by norm_num) (by norm_num)
      (by norm_num +decide [seriesRows, obs, List.filter_cons])⟩

theorem getLast?_drop_of_lt {α : Type} :
    ∀ (l : List α) (n : Nat), n < l.length → (l.drop n).getLast? = l.getLast? := by
  intro l
  induction l with
  | nil => intro n h; simp at h
  | cons a tl ih =>
    intro n h
    cases n with
    | zero => simp
    | succ n2 =>
      have hlt : n2 < tl.length := by simp at h; omega
      rw [List.drop_succ_cons, ih n2 hlt]
      cases tl with
      | nil => simp at hlt
      | cons b u => rw [List.getLast?_cons_cons]

theorem sum_nonneg_all_zero :
    ∀ (l : List ℚ), (∀ x ∈ l, 0 ≤ x) → l.sum = 0 → ∀ x ∈ l, x = 0 := by
  intro l
  induction l with
  | nil => simp
  | cons a tl ih =>
    intro hnn hsum x hx
    have hta : 0 ≤ a := hnn a (by simp)
    have htt : 0 ≤ tl.sum := List.sum_nonneg fun y hy => hnn y (by simp [hy])
    have hsum2 : a + tl.sum = 0 := by simpa using hsum
    have ha0 : a = 0 := by linarith
    have ht0 : tl.sum = 0 := by linarith
    rcases List.mem_cons.mp hx with rfl | hx2
    · exact ha0
    · exact ih (fun y hy => hnn y (by simp [hy])) ht0 x hx2

/-- C10 amended: a group whose stored prices are all non-negative and whose
latest rolling mean is zero is not flagged: every price in the trailing
window (including the latest) is then zero, the drop fraction is 0/0 = NaN,
and NaN >= threshold is false; no division error occurs (numpy division by
zero yields inf/NaN, modelled by the total fdiv).  With a negative latest
price the drop is +inf and the group IS flagged; see the counterexample. -/
theorem zero_mean_nonneg_not_flagged (db : List Row) (w : Nat) (t : ℚ) (mk nm : String)
    (hw : 1 ≤ w)
    (hnn : ∀ r ∈ seriesRows db (mk, nm), 0 ≤ r.price)
    (hzero : lastWindowMean w ((sortRows (seriesRows db (mk, nm))).map Row.price) = 0) :
    ∀ a ∈ detect_price_anomalies w t db, ¬(a.marketplace = mk ∧ a.name = nm) := by
  intro a ha hkey
  obtain ⟨k, hkmem, hsome⟩ := List.mem_filterMap.mp ha
  obtain ⟨e1, e2⟩ := seriesCheck_key hsome
  obtain ⟨k1, k2⟩ := k
  simp only at e1 e2
  have hkeq : (k1, k2) = (mk, nm) := by
    rw [e1.symm.trans hkey.1, e2.symm.trans hkey.2]
  rw [hkeq] at hsome
  suffices hnone : seriesCheck w t db (mk, nm) = none by
    rw [hnone] at hsome
    exact absurd hsome (by simp)
  simp only [seriesCheck]
  set g := sortRows (seriesRows db (mk, nm)) with hgdef
  set ps := g.map Row.price with hpsdef
  have hzero2 := hzero
  cases hg : g.getLast? with
  | none => rfl
  | some latest =>
    have hpsnn : ∀ x ∈ ps, 0 ≤ x := by
      intro x hx
      obtain ⟨r, hrg, hrx⟩ := List.mem_map.mp hx
      rw [← hrx]
      exact hnn r ((mem_sortRows r _).mp hrg)
    have hgne : g ≠ [] := by
      intro hc
      have := List.mem_of_getLast?_eq_some hg
      rw [hc] at this
      simp at this
    have hlen : 1 ≤ ps.length := by
      have : ps ≠ [] := by
        rw [hpsdef]
        intro hc
        exact hgne (List.map_eq_nil_iff.mp hc)
      exact List.length_pos_of_ne_nil this
    have hk1le : 1 ≤ min w ps.length := le_min hw hlen
    have hzs := hzero2
    simp only [lastWindowMean] at hzs
    have hsum : (ps.drop (ps.length - min w ps.length)).sum = 0 := by
      rcases div_eq_zero_iff.mp hzs with h0 | h0
      · exact h0
      · have hcpos : (0 : ℚ) < ((min w ps.length : Nat) : ℚ) := Nat.cast_pos.mpr hk1le
        rw [h0] at hcpos
        exact absurd hcpos (lt_irrefl 0)
    have hall0 : ∀ x ∈ ps.drop (ps.length - min w ps.length), x = 0 :=
      sum_nonneg_all_zero _ (fun y hy => hpsnn y (List.drop_subset _ _ hy)) hsum
    have hlast : latest.price = 0 := by
      have hd1 : 0 < ps.length := hlen
      have hd2 : 0 < min w ps.length := hk1le
      have hdl : (ps.drop (ps.length - min w ps.length)).getLast? = ps.getLast? :=
        getLast?_drop_of_lt ps _ (Nat.sub_lt hd1 hd2)
      have hlp : ps.getLast? = some latest.price := by
        rw [hpsdef, List.getLast?_map, hg]
        rfl
      exact hall0 latest.price (List.mem_of_getLast?_eq_some (by rw [hdl, hlp]))
    simp only [hlast, hzero2, sub_zero]
    norm_num [fdiv, fge]

theorem zero_mean_nonneg_not_flagged_witness :
    ((∀ r ∈ seriesRows [obs "t1" 0, obs "t2" 0] ("Shopee", "Phone X"), 0 ≤ r.price)
      ∧ lastWindowMean 5
          ((sortRows (seriesRows [obs "t1" 0, obs "t2" 0] ("Shopee", "Phone X"))).map Row.price)
          = 0)
  ∧ (∀ a ∈ detect_price_anomalies 5 (1 / 5) [obs "t1" 0, obs "t2" 0],
      ¬(a.marketplace = "Shopee" ∧ a.name = "Phone X")) := by
  have h1 : ∀ r ∈ seriesRows [obs "t1" 0, obs "t2" 0] ("Shopee", "Phone X"), 0 ≤ r.price := by
    norm_num +decide [seriesRows, obs, List.filter_cons]
  have h2 : lastWindowMean 5
      ((sortRows (seriesRows [obs "t1" 0, obs "t2" 0] ("Shopee", "Phone X"))).map Row.price)
      = 0 := by
    norm_num +decide [seriesRows, sortRows, insertRow, timeLe, obs, lastWindowMean,
      List.filter_cons]
  exact ⟨⟨h1, h2⟩,
    zero_mean_nonneg_not_flagged [obs "t1" 0, obs "t2" 0] 5 (1 / 5) "Shopee" "Phone X"
      (by norm_num) h1 h2⟩

/-! ## Orchestrator theorems -/

theorem kwRun_eq (beh : String → AdapterId → Except Unit (List Product)) (kw : String) :
    kwRun beh kw =
      (adapterCalls.filterMap fun a =>
          match beh kw a with
          | .error _ => some (kw, a)
          | .ok _ => none,
        adapterCalls.flatMap fun a =>
          match beh kw a with
          | .ok ps => ps
          | .error _ => []) := by
  cases hs : beh kw .shopee <;> cases hl : beh kw .lazada <;> cases hj : beh kw .jd <;>
    simp [kwRun, callAdapter, adapterCalls, hs, hl, hj]

theorem scrapeLoop_eq (beh : String → AdapterId → Except Unit (List Product)) :
    ∀ kws : List String,
      scrapeLoop beh kws =
        (kws.flatMap fun kw =>
            adapterCalls.filterMap fun a =>
              match beh kw a with
              | .error _ => some (kw, a)
              | .ok _ => none,
          kws.flatMap fun kw =>
            adapterCalls.flatMap fun a =>
              match beh kw a with
              | .ok ps => ps
              | .error _ => []) := by
  intro kws
  induction kws with
  | nil => simp [scrapeLoop]
  | cons kw rest ih =>
    rw [scrapeLoop, kwRun_eq, ih]
    simp

/-- C6: for every adapter behaviour and keyword list, scrape_all logs exactly
one error entry per failing adapter invocation (in invocation order over all
keywords), still aggregates the records of every successful invocation of
every keyword, and, when the aggregate is non-empty, persists it exactly once
at the end of the run, first to the database and then to the CSV export
(never per adapter). -/
theorem scrape_all_adapter_isolation
    (beh : String → AdapterId → Except Unit (List Product)) (kws : List String) :
    (scrape_all beh kws).errorLog =
      (kws.flatMap fun kw =>
        adapterCalls.filterMap fun a =>
          match beh kw a with
          | .error _ => some (kw, a)
          | .ok _ => none)
  ∧ (scrape_all beh kws).products =
      (kws.flatMap fun kw =>
        adapterCalls.flatMap fun a =>
          match beh kw a with
          | .ok ps => ps
          | .error _ => [])
  ∧ ((scrape_all beh kws).products ≠ [] →
      (scrape_all beh kws).persistTrace =
        [PersistEvent.schemaInit, PersistEvent.dbWrite (scrape_all beh kws).products,
          PersistEvent.csvWrite (scrape_all beh kws).products]) := by
  refine ⟨?_, ?_, ?_⟩
  · show (scrapeLoop beh kws).1 = _
    rw [scrapeLoop_eq]
  · show (scrapeLoop beh kws).2 = _
    rw [scrapeLoop_eq]
  · intro hne
    show PersistEvent.schemaInit :: _ = _
    have : (scrapeLoop beh kws).2.isEmpty = false := by
      have : (scrape_all beh kws).products = (scrapeLoop beh kws).2 := rfl
      rw [this] at hne
      simpa [List.isEmpty_iff] using hne
    rw [this]
    rfl

theorem scrape_all_adapter_isolation_witness :
    (scrape_all beh0 ["iphone"]).errorLog =
      (["iphone"].flatMap fun kw =>
        adapterCalls.filterMap fun a =>
          match beh0 kw a with
          | .error _ => some (kw, a)
          | .ok _ => none)
  ∧ (scrape_all beh0 ["iphone"]).products =
      (["iphone"].flatMap fun kw =>
        adapterCalls.flatMap fun a =>
          match beh0 kw a with
          | .ok ps => ps
          | .error _ => [])
  ∧ ((scrape_all beh0 ["iphone"]).products ≠ [] →
      (scrape_all beh0 ["iphone"]).persistTrace =
        [PersistEvent.schemaInit, PersistEvent.dbWrite (scrape_all beh0 ["iphone"]).products,
          PersistEvent.csvWrite (scrape_all beh0 ["iphone"]).products]) :=
  scrape_all_adapter_isolation beh0 ["iphone"]

/-! ## Round-trip theorem -/

/-- C9: appending a Record to the store with save_to_db and reading the row
back by source+name+timestamp (fresh key in the store) returns exactly the
row written by Product.as_tuple, and decoding that row reproduces every
field of the Record identically, including exact reconstruction of the
specs mapping from its JSON-encoded serialized form. -/
theorem record_roundtrip (p : Product) (db : List Row)
    (hfresh : ∀ r ∈ db,
      ¬(r.marketplace = p.marketplace ∧ r.name = p.name ∧ r.timestamp = p.timestamp)) :
    read_back (save_to_db [p] db) p.marketplace p.name p.timestamp = [p.as_tuple]
  ∧ decode_row p.as_tuple = some p := by
  constructor
  · have hsdb : save_to_db [p] db = db ++ [p.as_tuple] := by simp [save_to_db]
    rw [hsdb, read_back, List.filter_append]
    have h1 : db.filter
        (fun r => decide (r.marketplace = p.marketplace ∧ r.name = p.name
          ∧ r.timestamp = p.timestamp)) = [] := by
      rw [List.filter_eq_nil_iff]
      intro r hr
      simpa using hfresh r hr
    rw [h1]
    simp [Product.as_tuple]
  · rw [decode_row]
    have hspecs : (p.as_tuple).specs = json_dumps p.specs := rfl
    rw [hspecs, json_loads_dumps]
    simp only [Option.map_some']
    cases p
    rfl

theorem record_roundtrip_witness :
    read_back (save_to_db [p0] []) p0.marketplace p0.name p0.timestamp = [p0.as_tuple]
  ∧ decode_row p0.as_tuple = some p0 :=
  record_roundtrip p0 [] (by simp)
